import Mathlib

/-
Verification of the gorm-bulk bulk-statement assembly library.

The development shallowly embeds the library (gorm_bulk.go and exec_func.go)
in Lean. The gorm reflection layer is an external collaborator: a row object
is modelled as the list of field descriptors that gorm `Scope.Fields()` would
report for it (name, DB name, current value, blank flag, tag settings), and
the MySQL identifier quoting used by `scope.Quote(gorm.ToColumnName k)` is
modelled as wrapping an already-converted DB column name in backticks, which
is exactly what the repository tests observe. Timestamps are modelled as
natural numbers; the single `gorm.NowFunc()` call that `scopeFromObjects`
stores in the package-global `bulkNow` before normalizing any row (and resets
on exit) is modelled as an explicit `now` parameter threaded to every row of
one assembly call. Executing the final statement is modelled as an abstract
function from the assembled scope to an optional driver error.
-/

namespace GormBulk

/-- Runtime values that can be bound as SQL arguments. `null` models the Go
`interface\x7b\x7d` nil value, which is what a Go map lookup returns for a missing
key. `time` models a `time.Time` instant, as an abstract tick count. -/
inductive Value where
  | null
  | int (n : Int)
  | str (s : String)
  | time (t : Nat)
deriving DecidableEq, Repr

/-- Descriptor of one struct field as reported by the gorm reflection layer,
carrying exactly the attributes `ObjectToMap` consults: `structName` is
`field.Struct.Name`, `dbName` is `field.DBName`, `value` is
`field.Field.Interface()`, `isBlank` is `field.IsBlank`, `hasForeignKey` is
whether `field.TagSettingsGet("FOREIGNKEY")` is present, `hasRelationship` is
`field.StructField.Relationship != nil`, `isIgnored` is `field.IsIgnored`,
`hasDefaultValue` is `field.StructField.HasDefaultValue`, `tagDefault` is
`field.TagSettingsGet("DEFAULT")`, `isPrimaryKey` is `field.IsPrimaryKey` and
`tagAutoIncrement` is `field.TagSettingsGet("AUTO_INCREMENT")`. -/
structure Field where
  structName : String
  dbName : String
  value : Value
  isBlank : Bool
  hasForeignKey : Bool
  hasRelationship : Bool
  isIgnored : Bool
  hasDefaultValue : Bool
  tagDefault : Option String
  isPrimaryKey : Bool
  tagAutoIncrement : Option String
deriving DecidableEq, Repr

/-- Kind of Go value passed to `ObjectToMap`: a struct (with its reflected
fields), a pointer (dereferenced once by `rv.Elem()`), or any other kind,
which fails the `rv.Kind() != reflect.Struct` check. -/
inductive RowObject where
  | struct (fields : List Field)
  | ptr (inner : RowObject)
  | invalid
deriving DecidableEq, Repr

/-- Models the single pointer dereference `if rv.Kind() == reflect.Ptr
\x7b rv = rv.Elem() \x7d` at the top of `ObjectToMap`. -/
def derefOnce : RowObject → RowObject
  | .ptr inner => inner
  | o => o

/-- Go map with string keys, as an association list with unique keys kept in
first-insertion order. Iteration order of a Go map is unspecified, but the
assembler sorts the keys before using them, so only the key set matters. -/
abbrev AttrMap := List (String × Value)

/-- Models Go map assignment `attributes[k] = v`: overwrite the existing
binding for `k` if present, otherwise add a new one. -/
def insertAttr (m : AttrMap) (key : String) (v : Value) : AttrMap :=
  match m with
  | [] => [(key, v)]
  | (k, w) :: rest =>
    if k = key then (k, v) :: rest else (k, w) :: insertAttr rest key v

/-- Models the Go map read `row[key]`: the bound value, or nil (`Value.null`)
when the key is absent. -/
def attrGet (m : AttrMap) (key : String) : Value :=
  match m with
  | [] => .null
  | (k, v) :: rest => if k = key then v else attrGet rest key

/-- Key set of the map, in insertion order. -/
def attrKeys (m : AttrMap) : List String := m.map Prod.fst

/-- ASCII lower-casing on character codes, used to model `strings.EqualFold`
for the tag values (`"false"`, `"FALSE"`, ...) it is compared against. -/
def asciiLowerNat (n : Nat) : Nat := if 65 ≤ n ∧ n ≤ 90 then n + 32 else n

/-- Models `strings.EqualFold(value, "false")` on ASCII tag values. -/
def eqFoldFalse (s : String) : Bool :=
  s.data.map (fun c => asciiLowerNat c.toNat) = "false".data.map (fun c => c.toNat)

/-- Models the `AUTO_INCREMENT` tag check of `ObjectToMap`: the field is
skipped when the tag is present and its value is not (case-insensitively)
`"false"`. -/
def autoIncrSkip (f : Field) : Bool :=
  match f.tagAutoIncrement with
  | some v => !(eqFoldFalse v)
  | none => false

/-- Body of the field loop of `ObjectToMap` (gorm_bulk.go lines 190-237),
with the exclusion and rewrite rules in the exact source order: foreign key,
relationship, ignored, blank with declared default, blank primary key named
id, auto increment, and finally the CreatedAt/UpdatedAt timestamp rule.
`none` means the field is skipped (`continue` without an assignment);
`some v` means `attributes[field.DBName] = v` is executed. -/
def includedValue (now : Nat) (f : Field) : Option Value :=
  if f.hasForeignKey then none
  else if f.hasRelationship then none
  else if f.isIgnored then none
  else if f.hasDefaultValue && f.isBlank && f.tagDefault.isSome then none
  else if f.dbName = "id" && f.isPrimaryKey && f.isBlank then none
  else if autoIncrSkip f then none
  else if (f.structName = "CreatedAt" || f.structName = "UpdatedAt") && f.isBlank then
    some (.time now)
  else some f.value

/-- Models `ObjectToMap` (gorm_bulk.go lines 169-241). Inside
`scopeFromObjects` the package global `bulkNow` has been set to a single
`gorm.NowFunc()` value, so the `now.IsZero()` fallback never fires there;
the embedding passes that batch instant as the explicit `now` argument. -/
def ObjectToMap (now : Nat) (object : RowObject) : Except String AttrMap :=
  match derefOnce object with
  | .struct fields =>
    .ok (fields.foldl
      (fun attributes f =>
        match includedValue now f with
        | none => attributes
        | some v => insertAttr attributes f.dbName v)
      [])
  | _ => .error "value must be kind of Struct"

/-- Boolean byte-wise lexicographic strict order on character lists, the
comparison `sort.Strings` uses (restricted to the character level). -/
def charListLt : List Char → List Char → Bool
  | [], [] => false
  | [], _ :: _ => true
  | _ :: _, [] => false
  | a :: as, b :: bs => if a < b then true else if b < a then false else charListLt as bs

/-- Strict lexicographic order on strings. -/
def strLtB (a b : String) : Bool := charListLt a.data b.data

/-- Reflexive lexicographic order on strings (`a ≤ b` iff not `b < a`),
matching the total order `sort.Strings` sorts by, ascending. -/
def strLe (a b : String) : Prop := strLtB b a = false

instance : DecidableRel strLe := fun a b => inferInstanceAs (Decidable (strLtB b a = false))

/-- Models the cumulative effect of the `sort.Strings(columnNames)` calls in
`scopeFromObjects`: the list of column names in ascending lexicographic
order. -/
def sortStrings (l : List String) : List String := List.insertionSort strLe l

/-- Models `scope.Quote(gorm.ToColumnName(k))` for the MySQL dialect used by
the repository: `gorm.ToColumnName` is the identity on keys that already are
DB column names (which the keys of `ObjectToMap` are), and `Quote` wraps the
name in backticks. -/
def quoteColumn (s : String) : String := "\x60" ++ s ++ "\x60"

/-- Models `strings.Join(l, ", ")`. -/
def commaJoin (l : List String) : String := String.intercalate ", " l

/-- Placeholder group emitted for one row: `(?, ?, ..., ?)` with one question
mark per canonical column. -/
def placeholderGroup (columnCount : Nat) : String :=
  "(" ++ commaJoin (List.replicate columnCount "?") ++ ")"

/-- Models the per-row loop of `scopeFromObjects` (gorm_bulk.go lines
133-152) restricted to the argument list it builds: every row is normalized
(the first error aborts), and for each canonical column name, in order, the
value `row[key]` is appended via `AddToVars`. -/
def rowVars (now : Nat) (columnNames : List String) :
    List RowObject → Except String (List Value)
  | [] => .ok []
  | r :: rest =>
    match ObjectToMap now r with
    | .error e => .error e
    | .ok row =>
      match rowVars now columnNames rest with
      | .error e => .error e
      | .ok vs => .ok (columnNames.map (fun key => attrGet row key) ++ vs)

/-- Core of `scopeFromObjects` (gorm_bulk.go lines 85-157) up to the final
`execFunc` call: on the empty batch it is a no-op (`none`); otherwise it
normalizes the first row, fixes the canonical column order by sorting the
raw (unquoted) key names, quotes them only afterwards, and produces the
quoted column list, the per-row placeholder groups, and the flat argument
list. -/
def assembleParts (now : Nat) : List RowObject →
    Except String (Option (List String × List String × List Value))
  | [] => .ok none
  | first :: rest =>
    match ObjectToMap now first with
    | .error e => .error e
    | .ok firstObjectFields =>
      let columnNames := sortStrings (attrKeys firstObjectFields)
      let placeholders : List String := columnNames.map (fun _ => "?")
      let quotedColumnNames := columnNames.map quoteColumn
      match rowVars now columnNames (first :: rest) with
      | .error e => .error e
      | .ok sqlVars =>
        let groups := (first :: rest).map (fun _ => "(" ++ commaJoin placeholders ++ ")")
        .ok (some (quotedColumnNames, groups, sqlVars))

/-- Statement strategy: given the quoted table name, the optional
`gorm:insert_option` setting read from the scope, the quoted column names
and the placeholder groups, produce the SQL text stored into `scope.SQL`.
The three bundled strategies only set the SQL and leave the scope vars
untouched, which is what this signature captures. -/
def ExecFunc : Type :=
  String → Option String → List String → List String → String

/-- Assembled statement: `scope.SQL` plus `scope.SQLVars`. -/
structure BulkScope where
  sql : String
  sqlVars : List Value
deriving DecidableEq, Repr

/-- Models `scopeFromObjects` (gorm_bulk.go lines 85-157): assemble the
parts, then let the exec func build the final SQL from the quoted column
names and placeholder groups. `Except.ok none` models the `(nil, nil)`
no-op return for an empty batch. -/
def scopeFromObjects (now : Nat) (tableName : String) (insertOption : Option String)
    (objects : List RowObject) (execFunc : ExecFunc) : Except String (Option BulkScope) :=
  match assembleParts now objects with
  | .error e => .error e
  | .ok none => .ok none
  | .ok (some (quotedColumnNames, groups, sqlVars)) =>
    .ok (some { sql := execFunc tableName insertOption quotedColumnNames groups
              , sqlVars := sqlVars })

/-- Models `defaultWithFormat` (exec_func.go lines 67-85): fill the three
holes of the format with the quoted table name, the joined column names and
the joined groups, then append `" " ++ option` when the scope carries a
`gorm:insert_option` setting. -/
def defaultWithFormat (tableName : String) (insertOption : Option String)
    (columnNames groups : List String)
    (format : String → String → String → String) : String :=
  let extraOptions :=
    match insertOption with
    | some o => " " ++ o
    | none => ""
  format tableName (commaJoin columnNames) (commaJoin groups) ++ extraOptions

/-- Models `InsertFunc` (exec_func.go lines 21-23). -/
def InsertFunc : ExecFunc := fun tableName insertOption columnNames groups =>
  defaultWithFormat tableName insertOption columnNames groups
    (fun t c g => "INSERT INTO " ++ t ++ " (" ++ c ++ ") VALUES " ++ g)

/-- Models `InsertIgnoreFunc` (exec_func.go lines 32-34). -/
def InsertIgnoreFunc : ExecFunc := fun tableName insertOption columnNames groups =>
  defaultWithFormat tableName insertOption columnNames groups
    (fun t c g => "INSERT IGNORE INTO " ++ t ++ " (" ++ c ++ ") VALUES " ++ g)

/-- Models `InsertOnDuplicateKeyUpdateFunc` (exec_func.go lines 46-65). -/
def InsertOnDuplicateKeyUpdateFunc : ExecFunc := fun tableName _ columnNames groups =>
  let duplicateUpdates := columnNames.map (fun c => c ++ " = VALUES(" ++ c ++ ")")
  "INSERT INTO " ++ tableName ++ " (" ++ commaJoin columnNames ++ ") VALUES "
    ++ commaJoin groups ++ " ON DUPLICATE KEY UPDATE " ++ commaJoin duplicateUpdates

/-- Models `BulkExec` (gorm_bulk.go lines 71-83): assemble the scope; an
assembly error is returned as is; a `nil` scope means nothing to do and no
statement is executed; otherwise the statement is handed to the driver,
modelled by the abstract `exec`, whose optional error is passed through.
The result is the returned Go error (`none` = nil). -/
def BulkExec (exec : BulkScope → Option String) (now : Nat) (tableName : String)
    (insertOption : Option String) (objects : List RowObject)
    (execFunc : ExecFunc) : Option String :=
  match scopeFromObjects now tableName insertOption objects execFunc with
  | .error e => some e
  | .ok none => none
  | .ok (some scope) => exec scope

/-- Outcome of the `BulkExecChunk` loop: either the loop reaches its `break`
normally, carrying all collected per-chunk errors in order, or a slice
expression `objects[:chunkSize]` with a negative bound panics (slice bounds
out of range), carrying the errors collected before the panic. -/
inductive ChunkOutcome where
  | normal (allErrors : List String)
  | outOfBounds (allErrors : List String)
deriving DecidableEq, Repr

/-- One-to-one fueled model of the `for` loop of `BulkExecChunk`
(gorm_bulk.go lines 41-60). Each iteration takes the whole remainder when
`len(objects) <= chunkSize` (and then necessarily breaks), panics when the
slice bound `chunkSize` is negative, and otherwise slices off the first
`chunkSize` elements, runs the per-chunk pipeline `run`, collects its error
if any, and continues while the remainder is non-empty. `none` means the
fuel ran out before the loop finished, so `(∀ fuel, ... = none)` states that
the loop never terminates. -/
def bulkExecChunkLoop (run : List RowObject → Option String) (chunkSize : Int) :
    Nat → List RowObject → Option ChunkOutcome
  | 0, _ => none
  | fuel + 1, objects =>
    if (objects.length : Int) ≤ chunkSize then
      some (.normal (run objects).toList)
    else if chunkSize < 0 then
      some (.outOfBounds [])
    else
      let chunkObjects := objects.take chunkSize.toNat
      let rest := objects.drop chunkSize.toNat
      let errs := (run chunkObjects).toList
      if rest.length < 1 then some (.normal errs)
      else
        match bulkExecChunkLoop run chunkSize fuel rest with
        | none => none
        | some (.normal es) => some (.normal (errs ++ es))
        | some (.outOfBounds es) => some (.outOfBounds (errs ++ es))

/-- Models `BulkExecChunk` (gorm_bulk.go lines 38-67) with enough fuel for
every positive chunk size. The collected error list of the `normal` outcome
models the returned `[]error`, with the empty list standing for the `nil`
return. -/
def BulkExecChunk (run : List RowObject → Option String) (chunkSize : Int)
    (objects : List RowObject) : Option ChunkOutcome :=
  bulkExecChunkLoop run chunkSize (objects.length + 1) objects

/-- Chunk decomposition performed by the `BulkExecChunk` loop for
non-negative chunk sizes, written as a fueled recursion so that it is
kernel-computable; `goChunksAux (length objects)` is fully accurate for
every `chunkSize ≥ 1` (proved below). -/
def goChunksAux (chunkSize : Int) : Nat → List RowObject → List (List RowObject)
  | 0, objects => [objects]
  | fuel + 1, objects =>
    if (objects.length : Int) ≤ chunkSize then [objects]
    else
      objects.take chunkSize.toNat ::
        goChunksAux chunkSize fuel (objects.drop chunkSize.toNat)

/-- Contiguous chunks of at most `chunkSize` elements, in original order. -/
def goChunks (chunkSize : Int) (objects : List RowObject) : List (List RowObject) :=
  goChunksAux chunkSize objects.length objects

/-- Normalization of every row of a batch, in order, stopping at the first
failure; used to state theorems about the per-row maps `scopeFromObjects`
computes. -/
def normalizeAll (now : Nat) : List RowObject → Except String (List AttrMap)
  | [] => .ok []
  | r :: rest =>
    match ObjectToMap now r with
    | .error e => .error e
    | .ok m =>
      match normalizeAll now rest with
      | .error e => .error e
      | .ok ms => .ok (m :: ms)

/-! Order properties of the lexicographic comparison, giving the instances
`List.insertionSort` needs so that `sortStrings` provably returns an
ascending permutation of its input. -/

theorem charListLt_asymm : ∀ as bs, charListLt as bs = true → charListLt bs as = false := by
  intro as
  induction as with
  | nil =>
    intro bs h
    cases bs with
    | nil => simp [charListLt] at h
    | cons b bs => simp [charListLt]
  | cons a as ih =>
    intro bs h
    cases bs with
    | nil => simp [charListLt] at h
    | cons b bs =>
      simp only [charListLt] at h ⊢
      by_cases hab : a < b
      · have hba : ¬ b < a := lt_asymm hab
        simp [hab, hba]
      · by_cases hba : b < a
        · simp [hab, hba] at h
        · simp only [if_neg hab, if_neg hba] at h
          simp only [if_neg hba, if_neg hab]
          exact ih bs h

theorem charListLt_trans :
    ∀ as bs cs, charListLt as bs = true → charListLt bs cs = true →
      charListLt as cs = true := by
  intro as
  induction as with
  | nil =>
    intro bs cs h1 h2
    cases bs with
    | nil => simp [charListLt] at h1
    | cons b bs =>
      cases cs with
      | nil => simp [charListLt] at h2
      | cons c cs => simp [charListLt]
  | cons a as ih =>
    intro bs cs h1 h2
    cases bs with
    | nil => simp [charListLt] at h1
    | cons b bs =>
      cases cs with
      | nil => simp [charListLt] at h2
      | cons c cs =>
        simp only [charListLt] at h1 h2 ⊢
        by_cases hab : a < b
        · by_cases hbc : b < c
          · simp [lt_trans hab hbc]
          · by_cases hcb : c < b
            · simp [hbc, hcb] at h2
            · have hbceq : b = c := le_antisymm (le_of_not_lt hcb) (le_of_not_lt hbc)
              subst hbceq
              simp [hab]
        · by_cases hba : b < a
          · simp [hab, hba] at h1
          · have habeq : a = b := le_antisymm (le_of_not_lt hba) (le_of_not_lt hab)
            subst habeq
            simp only [if_neg hab, if_neg hba] at h1
            by_cases hac : a < c
            · simp [hac]
            · by_cases hca : c < a
              · simp [hac, hca] at h2
              · simp only [if_neg hac, if_neg hca] at h2 ⊢
                exact ih bs cs h1 h2

theorem charListLt_conn :
    ∀ as bs, charListLt as bs = false → charListLt bs as = false → as = bs := by
  intro as
  induction as with
  | nil =>
    intro bs h1 _
    cases bs with
    | nil => rfl
    | cons b bs => simp [charListLt] at h1
  | cons a as ih =>
    intro bs h1 h2
    cases bs with
    | nil => simp [charListLt] at h2
    | cons b bs =>
      simp only [charListLt] at h1 h2
      by_cases hab : a < b
      · simp [hab] at h1
      · by_cases hba : b < a
        · simp [hab, hba] at h2
        · have habeq : a = b := le_antisymm (le_of_not_lt hba) (le_of_not_lt hab)
          simp only [if_neg hab, if_neg hba] at h1 h2
          rw [habeq, ih bs h1 h2]

instance : IsTotal String strLe := by
  constructor
  intro a b
  unfold strLe strLtB
  by_cases h : charListLt b.data a.data = true
  · right
    exact charListLt_asymm _ _ h
  · left
    simpa using h

instance : IsTrans String strLe := by
  constructor
  intro a b c hab hbc
  unfold strLe strLtB at hab hbc ⊢
  by_cases hca : charListLt c.data a.data = true
  · by_cases hbc2 : charListLt b.data c.data = true
    · have hba := charListLt_trans _ _ _ hbc2 hca
      rw [hab] at hba
      exact absurd hba (by simp)
    · have hbceq : b.data = c.data :=
        charListLt_conn _ _ (by simpa using hbc2) hbc
      rw [← hbceq] at hca
      rw [hab] at hca
      exact absurd hca (by simp)
  · simpa using hca

theorem sortStrings_sorted (l : List String) : List.Sorted strLe (sortStrings l) :=
  List.sorted_insertionSort strLe l

theorem sortStrings_perm (l : List String) : (sortStrings l).Perm l :=
  List.perm_insertionSort strLe l

/-! Lemmas about the Go map model. -/

theorem attrGet_insertAttr_self (m : AttrMap) (k : String) (v : Value) :
    attrGet (insertAttr m k v) k = v := by
  induction m with
  | nil => simp [insertAttr, attrGet]
  | cons p rest ih =>
    obtain ⟨k1, v1⟩ := p
    by_cases h : k1 = k
    · simp [insertAttr, h, attrGet]
    · simp [insertAttr, h, attrGet, ih]

theorem attrKeys_nil : attrKeys [] = [] := rfl

theorem attrKeys_cons (k : String) (v : Value) (m : AttrMap) :
    attrKeys ((k, v) :: m) = k :: attrKeys m := rfl

theorem attrGet_insertAttr_ne (m : AttrMap) (k k' : String) (v : Value)
    (h : k ≠ k') : attrGet (insertAttr m k v) k' = attrGet m k' := by
  induction m with
  | nil => simp [insertAttr, attrGet, h]
  | cons p rest ih =>
    obtain ⟨k1, v1⟩ := p
    by_cases h1 : k1 = k
    · subst h1
      simp [insertAttr, attrGet, h]
    · simp only [insertAttr, if_neg h1, attrGet]
      by_cases h2 : k1 = k'
      · simp [h2]
      · simp [h2, ih]

theorem mem_attrKeys_insertAttr (m : AttrMap) (k k' : String) (v : Value) :
    k' ∈ attrKeys (insertAttr m k v) ↔ k' ∈ attrKeys m ∨ k' = k := by
  induction m with
  | nil => simp [insertAttr, attrKeys_nil, attrKeys_cons]
  | cons p rest ih =>
    obtain ⟨k1, v1⟩ := p
    by_cases h : k1 = k
    · subst h
      rw [show insertAttr ((k1, v1) :: rest) k1 v = (k1, v) :: rest from by simp [insertAttr]]
      simp only [attrKeys_cons, List.mem_cons]
      tauto
    · simp only [insertAttr, if_neg h, attrKeys_cons, List.mem_cons, ih]
      tauto

theorem attrGet_eq_null_of_not_mem (m : AttrMap) (k : String)
    (h : k ∉ attrKeys m) : attrGet m k = .null := by
  induction m with
  | nil => simp [attrGet]
  | cons p rest ih =>
    obtain ⟨k1, v1⟩ := p
    rw [attrKeys_cons] at h
    simp only [List.mem_cons, not_or] at h
    simp only [attrGet]
    rw [if_neg (fun hh => h.1 hh.symm), ih h.2]

/-! Lemmas about the field fold inside `ObjectToMap`. -/

/-- Step function of the `ObjectToMap` field loop. -/
def otmStep (now : Nat) (attributes : AttrMap) (f : Field) : AttrMap :=
  match includedValue now f with
  | none => attributes
  | some v => insertAttr attributes f.dbName v

theorem ObjectToMap_struct (now : Nat) (o : RowObject) (fields : List Field)
    (ho : derefOnce o = .struct fields) :
    ObjectToMap now o = .ok (fields.foldl (otmStep now) []) := by
  unfold ObjectToMap
  rw [ho]
  rfl

theorem foldl_otmStep_attrGet_frozen (now : Nat) (key : String) :
    ∀ (fields : List Field) (acc : AttrMap),
      (∀ g ∈ fields, g.dbName ≠ key ∨ includedValue now g = none) →
      attrGet (fields.foldl (otmStep now) acc) key = attrGet acc key := by
  intro fields
  induction fields with
  | nil => intro acc _; rfl
  | cons g rest ih =>
    intro acc h
    rw [List.foldl_cons]
    rw [ih _ (fun g2 hg2 => h g2 (List.mem_cons_of_mem _ hg2))]
    rcases h g (List.mem_cons_self _ _) with hne | hnone
    · unfold otmStep
      cases hv : includedValue now g with
      | none => rfl
      | some v => exact attrGet_insertAttr_ne _ _ _ _ hne
    · unfold otmStep
      rw [hnone]

theorem foldl_otmStep_not_mem (now : Nat) (key : String) :
    ∀ (fields : List Field) (acc : AttrMap),
      key ∉ attrKeys acc →
      (∀ g ∈ fields, g.dbName = key → includedValue now g = none) →
      key ∉ attrKeys (fields.foldl (otmStep now) acc) := by
  intro fields
  induction fields with
  | nil => intro acc hacc _; exact hacc
  | cons g rest ih =>
    intro acc hacc h
    rw [List.foldl_cons]
    refine ih _ ?_ (fun g2 hg2 => h g2 (List.mem_cons_of_mem _ hg2))
    unfold otmStep
    cases hv : includedValue now g with
    | none => exact hacc
    | some v =>
      intro hmem
      rcases (mem_attrKeys_insertAttr _ _ _ _).mp hmem with hm | he
      · exact hacc hm
      · have := h g (List.mem_cons_self _ _) he.symm
        rw [this] at hv
        cases hv

theorem foldl_otmStep_attrGet_of_mem (now : Nat) (f : Field) (v : Value)
    (hv : includedValue now f = some v) :
    ∀ (fields : List Field) (acc : AttrMap),
      f ∈ fields →
      (∀ g ∈ fields, g.dbName = f.dbName → g = f) →
      attrGet (fields.foldl (otmStep now) acc) f.dbName = v := by
  intro fields
  induction fields with
  | nil => intro acc hf _; cases hf
  | cons g rest ih =>
    intro acc hf huniq
    rw [List.foldl_cons]
    by_cases hfr : f ∈ rest
    · exact ih _ hfr (fun g2 hg2 => huniq g2 (List.mem_cons_of_mem _ hg2))
    · have hfg : f = g := by
        rcases List.mem_cons.mp hf with h | h
        · exact h
        · exact absurd h hfr
      subst hfg
      rw [foldl_otmStep_attrGet_frozen now f.dbName rest _ ?nowriter]
      case nowriter =>
        intro g2 hg2
        left
        intro heq
        exact hfr ((huniq g2 (List.mem_cons_of_mem _ hg2) heq) ▸ hg2)
      unfold otmStep
      rw [hv]
      exact attrGet_insertAttr_self _ _ _

theorem ObjectToMap_attrGet (now : Nat) (o : RowObject) (fields : List Field)
    (m : AttrMap) (f : Field) (v : Value)
    (ho : derefOnce o = .struct fields) (hm : ObjectToMap now o = .ok m)
    (hf : f ∈ fields) (huniq : ∀ g ∈ fields, g.dbName = f.dbName → g = f)
    (hv : includedValue now f = some v) :
    attrGet m f.dbName = v := by
  rw [ObjectToMap_struct now o fields ho] at hm
  cases hm
  exact foldl_otmStep_attrGet_of_mem now f v hv fields [] hf huniq

theorem ObjectToMap_not_mem_keys (now : Nat) (o : RowObject) (fields : List Field)
    (m : AttrMap) (key : String)
    (ho : derefOnce o = .struct fields) (hm : ObjectToMap now o = .ok m)
    (hall : ∀ g ∈ fields, g.dbName = key → includedValue now g = none) :
    key ∉ attrKeys m := by
  rw [ObjectToMap_struct now o fields ho] at hm
  cases hm
  exact foldl_otmStep_not_mem now key fields [] (by simp [attrKeys_nil]) hall

/-! Lemmas relating `normalizeAll`, `rowVars` and `assembleParts`. -/

theorem normalizeAll_length (now : Nat) :
    ∀ (os : List RowObject) (ms : List AttrMap),
      normalizeAll now os = .ok ms → ms.length = os.length := by
  intro os
  induction os with
  | nil => intro ms h; cases h; rfl
  | cons r rest ih =>
    intro ms h
    unfold normalizeAll at h
    cases hr : ObjectToMap now r with
    | error e => rw [hr] at h; cases h
    | ok m =>
      rw [hr] at h
      cases hrest : normalizeAll now rest with
      | error e => rw [hrest] at h; cases h
      | ok ms2 =>
        rw [hrest] at h
        cases h
        simp [ih ms2 hrest]

theorem normalizeAll_getD (now : Nat) :
    ∀ (os : List RowObject) (ms : List AttrMap),
      normalizeAll now os = .ok ms →
      ∀ i, i < os.length →
        ObjectToMap now (os.getD i .invalid) = .ok (ms.getD i []) := by
  intro os
  induction os with
  | nil => intro ms _ i hi; cases hi
  | cons r rest ih =>
    intro ms h i hi
    unfold normalizeAll at h
    cases hr : ObjectToMap now r with
    | error e => rw [hr] at h; cases h
    | ok m =>
      rw [hr] at h
      cases hrest : normalizeAll now rest with
      | error e => rw [hrest] at h; cases h
      | ok ms2 =>
        rw [hrest] at h
        cases h
        cases i with
        | zero => simpa using hr
        | succ j =>
          simp only [List.getD_cons_succ]
          exact ih ms2 hrest j (by simpa using hi)

theorem rowVars_eq (now : Nat) (columnNames : List String) :
    ∀ (os : List RowObject) (ms : List AttrMap),
      normalizeAll now os = .ok ms →
      rowVars now columnNames os =
        .ok (ms.flatMap (fun m => columnNames.map (fun key => attrGet m key))) := by
  intro os
  induction os with
  | nil => intro ms h; cases h; rfl
  | cons r rest ih =>
    intro ms h
    unfold normalizeAll at h
    cases hr : ObjectToMap now r with
    | error e => rw [hr] at h; cases h
    | ok m =>
      rw [hr] at h
      cases hrest : normalizeAll now rest with
      | error e => rw [hrest] at h; cases h
      | ok ms2 =>
        rw [hrest] at h
        cases h
        unfold rowVars
        rw [hr, ih ms2 hrest]
        simp [List.flatMap_cons]

theorem rowVars_error (now : Nat) (columnNames : List String) :
    ∀ (os : List RowObject),
      (∃ r ∈ os, ∃ e, ObjectToMap now r = .error e) →
      ∃ e, rowVars now columnNames os = .error e := by
  intro os
  induction os with
  | nil => rintro ⟨r, hr, _⟩; cases hr
  | cons r rest ih =>
    rintro ⟨r2, hr2, e2, he2⟩
    cases hr : ObjectToMap now r with
    | error e => exact ⟨e, by unfold rowVars; rw [hr]⟩
    | ok m =>
      have hrest : ∃ r ∈ rest, ∃ e, ObjectToMap now r = .error e := by
        rcases List.mem_cons.mp hr2 with h | h
        · subst h; rw [hr] at he2; cases he2
        · exact ⟨r2, h, e2, he2⟩
      obtain ⟨e, he⟩ := ih hrest
      refine ⟨e, ?_⟩
      unfold rowVars
      rw [hr, he]

theorem map_const_eq_replicate (l : List String) :
    l.map (fun _ => ("?" : String)) = List.replicate l.length "?" := by
  induction l with
  | nil => rfl
  | cons a rest ih => simp [List.replicate_succ, ih]

theorem assembleParts_ok (now : Nat) (o : RowObject) (rest : List RowObject)
    (ms : List AttrMap) (h : normalizeAll now (o :: rest) = .ok ms) :
    assembleParts now (o :: rest) =
      .ok (some
        ((sortStrings (attrKeys (ms.getD 0 []))).map quoteColumn,
         List.replicate (o :: rest).length
           (placeholderGroup (sortStrings (attrKeys (ms.getD 0 []))).length),
         ms.flatMap (fun m =>
           (sortStrings (attrKeys (ms.getD 0 []))).map (fun key => attrGet m key)))) := by
  have hhead : ObjectToMap now o = .ok (ms.getD 0 []) := by
    have := normalizeAll_getD now (o :: rest) ms h 0 (by simp)
    simpa using this
  have hvars := rowVars_eq now (sortStrings (attrKeys (ms.getD 0 []))) (o :: rest) ms h
  have hgroups : (o :: rest).map (fun _ =>
        "(" ++ commaJoin ((sortStrings (attrKeys (ms.getD 0 []))).map (fun _ => "?")) ++ ")")
      = List.replicate (o :: rest).length
          (placeholderGroup (sortStrings (attrKeys (ms.getD 0 []))).length) := by
    rw [map_const_eq_replicate]
    unfold placeholderGroup
    exact List.map_const _ _
  simp only [assembleParts, hhead, hvars]
  rw [hgroups]

theorem flatMap_rows_length (columnNames : List String) :
    ∀ (ms : List AttrMap),
      (ms.flatMap (fun m => columnNames.map (fun key => attrGet m key))).length
        = ms.length * columnNames.length := by
  intro ms
  induction ms with
  | nil => simp
  | cons m rest ih =>
    simp only [List.flatMap_cons, List.length_append, List.length_map, ih,
      List.length_cons]
    ring

theorem getD_map_lt (f : String → Value) (d : Value) :
    ∀ (l : List String) (j : Nat), j < l.length →
      (l.map f).getD j d = f (l.getD j "") := by
  intro l
  induction l with
  | nil => intro j hj; cases hj
  | cons a rest ih =>
    intro j hj
    cases j with
    | zero => rfl
    | succ i =>
      simp only [List.map_cons, List.getD_cons_succ]
      exact ih i (by simpa using hj)

theorem flatMap_rows_getD (columnNames : List String) (d : Value) :
    ∀ (ms : List AttrMap) (i : Nat),
      0 < columnNames.length → i < ms.length * columnNames.length →
      (ms.flatMap (fun m => columnNames.map (fun key => attrGet m key))).getD i d
        = attrGet (ms.getD (i / columnNames.length) [])
            (columnNames.getD (i % columnNames.length) "") := by
  intro ms
  induction ms with
  | nil => intro i _ hi; simp at hi
  | cons m rest ih =>
    intro i hk hi
    simp only [List.flatMap_cons]
    by_cases hik : i < columnNames.length
    · rw [List.getD_append _ _ _ _ (by simpa using hik)]
      rw [getD_map_lt _ _ _ _ hik]
      rw [Nat.div_eq_of_lt hik, Nat.mod_eq_of_lt hik]
      rfl
    · push_neg at hik
      rw [List.getD_append_right _ _ _ _ (by simpa using hik)]
      have hi2 : i - columnNames.length < rest.length * columnNames.length := by
        have : (m :: rest).length * columnNames.length
            = rest.length * columnNames.length + columnNames.length := by
          simp [List.length_cons, Nat.succ_mul]
        omega
      have := ih (i - columnNames.length) hk hi2
      simp only [List.length_map]
      rw [this]
      rw [Nat.div_eq_sub_div hk hik, Nat.mod_eq_sub_mod hik]
      simp [List.getD_cons_succ]

theorem row_major_getD (columnNames : List String) (d : Value)
    (ms : List AttrMap) (i j : Nat)
    (hi : i < ms.length) (hj : j < columnNames.length) :
    (ms.flatMap (fun m => columnNames.map (fun key => attrGet m key))).getD
        (i * columnNames.length + j) d
      = attrGet (ms.getD i []) (columnNames.getD j "") := by
  have hk : 0 < columnNames.length := Nat.lt_of_le_of_lt (Nat.zero_le _) hj
  have hbound : i * columnNames.length + j < ms.length * columnNames.length := by
    have h1 : i * columnNames.length + j < (i + 1) * columnNames.length := by
      rw [Nat.succ_mul]
      omega
    have h2 : (i + 1) * columnNames.length ≤ ms.length * columnNames.length :=
      Nat.mul_le_mul_right _ hi
    omega
  rw [flatMap_rows_getD columnNames d ms _ hk hbound]
  have hdiv : (i * columnNames.length + j) / columnNames.length = i := by
    rw [Nat.add_comm, Nat.add_mul_div_right _ _ hk, Nat.div_eq_of_lt hj]
    omega
  have hmod : (i * columnNames.length + j) % columnNames.length = j := by
    rw [Nat.add_comm, Nat.add_mul_mod_self_right, Nat.mod_eq_of_lt hj]
  rw [hdiv, hmod]

/-! Lemmas about the chunking loop. -/

theorem goChunksAux_of_le (c : Int) (objects : List RowObject)
    (h : (objects.length : Int) ≤ c) :
    ∀ fuel, goChunksAux c fuel objects = [objects] := by
  intro fuel
  cases fuel with
  | zero => rfl
  | succ n => simp [goChunksAux, h]

theorem goChunksAux_fuel_irrel (c : Int) (hc : 1 ≤ c) :
    ∀ (fuel₁ fuel₂ : Nat) (objects : List RowObject),
      objects.length ≤ fuel₁ → objects.length ≤ fuel₂ →
      goChunksAux c fuel₁ objects = goChunksAux c fuel₂ objects := by
  intro fuel₁
  induction fuel₁ with
  | zero =>
    intro fuel₂ objects h1 _
    have : objects = [] := List.length_eq_zero.mp (Nat.le_zero.mp h1)
    subst this
    rw [goChunksAux_of_le c [] (by simp; omega) fuel₂]
    rfl
  | succ n ih =>
    intro fuel₂ objects h1 h2
    by_cases hle : (objects.length : Int) ≤ c
    · rw [goChunksAux_of_le c objects hle, goChunksAux_of_le c objects hle]
    · have hlen : 1 ≤ objects.length := by omega
      obtain ⟨m, rfl⟩ : ∃ m, fuel₂ = m + 1 := by
        cases fuel₂ with
        | zero => omega
        | succ m => exact ⟨m, rfl⟩
      simp only [goChunksAux, if_neg hle]
      have hdrop : (objects.drop c.toNat).length ≤ n := by
        rw [List.length_drop]
        omega
      have hdrop2 : (objects.drop c.toNat).length ≤ m := by
        rw [List.length_drop]
        omega
      rw [ih m _ hdrop hdrop2]

theorem goChunksAux_flatten (c : Int) (hc : 1 ≤ c) :
    ∀ (fuel : Nat) (objects : List RowObject),
      objects.length ≤ fuel → (goChunksAux c fuel objects).flatten = objects := by
  intro fuel
  induction fuel with
  | zero =>
    intro objects h
    have : objects = [] := List.length_eq_zero.mp (Nat.le_zero.mp h)
    subst this
    rfl
  | succ n ih =>
    intro objects h
    by_cases hle : (objects.length : Int) ≤ c
    · simp [goChunksAux, hle]
    · simp only [goChunksAux, if_neg hle, List.flatten_cons]
      rw [ih _ (by rw [List.length_drop]; omega)]
      exact List.take_append_drop _ _

theorem goChunksAux_sizes (c : Int) (hc : 1 ≤ c) :
    ∀ (fuel : Nat) (objects : List RowObject),
      objects.length ≤ fuel →
      ∀ ch ∈ goChunksAux c fuel objects, (ch.length : Int) ≤ c := by
  intro fuel
  induction fuel with
  | zero =>
    intro objects h ch hch
    have : objects = [] := List.length_eq_zero.mp (Nat.le_zero.mp h)
    subst this
    simp only [goChunksAux, List.mem_singleton] at hch
    subst hch
    simp
    omega
  | succ n ih =>
    intro objects h ch hch
    by_cases hle : (objects.length : Int) ≤ c
    · simp only [goChunksAux, if_pos hle, List.mem_singleton] at hch
      subst hch
      exact hle
    · simp only [goChunksAux, if_neg hle, List.mem_cons] at hch
      rcases hch with rfl | hch
      · rw [List.length_take]
        have : c.toNat ≤ objects.length := by omega
        simp only [Nat.min_def, if_pos this]
        omega
      · exact ih _ (by rw [List.length_drop]; omega) ch hch

theorem filterMap_option_cons (run : List RowObject → Option String)
    (ch : List RowObject) (chs : List (List RowObject)) :
    (ch :: chs).filterMap run = (run ch).toList ++ chs.filterMap run := by
  cases h : run ch with
  | none => simp [List.filterMap_cons, h]
  | some e => simp [List.filterMap_cons, h]

theorem bulkExecChunkLoop_normal (run : List RowObject → Option String)
    (c : Int) (hc : 1 ≤ c) :
    ∀ (fuel : Nat) (objects : List RowObject), objects.length < fuel →
      bulkExecChunkLoop run c fuel objects
        = some (.normal ((goChunks c objects).filterMap run)) := by
  intro fuel
  induction fuel with
  | zero => intro objects h; cases h
  | succ n ih =>
    intro objects h
    by_cases hle : (objects.length : Int) ≤ c
    · simp only [bulkExecChunkLoop, if_pos hle]
      unfold goChunks
      rw [goChunksAux_of_le c objects hle]
      rw [filterMap_option_cons]
      simp
    · have hneg : ¬ c < 0 := by omega
      have hlen : 1 ≤ objects.length := by omega
      have hrest : (objects.drop c.toNat).length = objects.length - c.toNat := by
        rw [List.length_drop]
      have hrest1 : 1 ≤ (objects.drop c.toNat).length := by omega
      simp only [bulkExecChunkLoop, if_neg hle, if_neg hneg]
      rw [if_neg (by omega)]
      rw [ih (objects.drop c.toNat) (by omega)]
      unfold goChunks
      obtain ⟨m, hm⟩ : ∃ m, objects.length = m + 1 := by
        cases hh : objects.length with
        | zero => omega
        | succ m => exact ⟨m, rfl⟩
      rw [hm]
      simp only [goChunksAux, if_neg hle]
      rw [goChunksAux_fuel_irrel c hc m (objects.drop c.toNat).length _ (by omega) (le_refl _)]
      rw [filterMap_option_cons]

/-! Concrete rows and helpers used by witnesses and counterexamples. -/

/-- Ordinary persisted field: DB column `db`, current value `v`, no special
tags or flags. -/
def plainField (db : String) (v : Value) : Field :=
  { structName := db, dbName := db, value := v, isBlank := false,
    hasForeignKey := false, hasRelationship := false, isIgnored := false,
    hasDefaultValue := false, tagDefault := none, isPrimaryKey := false,
    tagAutoIncrement := none }

/-- Driver stub that always succeeds. -/
def runNoop : List RowObject → Option String := fun _ => none

/-! Claim C9. -/

/-- C9: for the empty input batch, assembly and bulk execution are a no-op:
`scopeFromObjects` returns no scope and no error, and `BulkExec` returns nil
without attempting any execution — the result is `none` for every driver
`exec` whatsoever, including one that would fail on any statement, so no
statement can have been executed. -/
theorem claim_C9 (exec : BulkScope → Option String) (now : Nat) (tableName : String)
    (insertOption : Option String) (execFunc : ExecFunc) :
    scopeFromObjects now tableName insertOption [] execFunc = .ok none
    ∧ BulkExec exec now tableName insertOption [] execFunc = none :=
  ⟨rfl, rfl⟩

/-! Claim C10. -/

/-- C10: the `BulkExecChunk` loop terminates for every objects list when
`chunkSize ≥ 1`; it terminates for the empty list for every `chunkSize`
(for a negative `chunkSize` it terminates by the out-of-bounds slice panic);
for every non-empty list with `chunkSize = 0` it never terminates, no amount
of fuel making the fueled model return; and for every non-empty list with
`chunkSize < 0` the slice `objects[:chunkSize]` of the first iteration is
out of bounds. -/
theorem claim_C10 :
    (∀ (run : List RowObject → Option String) (chunkSize : Int)
       (objects : List RowObject), 1 ≤ chunkSize →
       ∃ fuel r, bulkExecChunkLoop run chunkSize fuel objects = some r)
    ∧ (∀ (run : List RowObject → Option String) (chunkSize : Int),
       ∃ r, bulkExecChunkLoop run chunkSize 1 [] = some r)
    ∧ (∀ (run : List RowObject → Option String) (objects : List RowObject),
       objects ≠ [] → ∀ fuel, bulkExecChunkLoop run 0 fuel objects = none)
    ∧ (∀ (run : List RowObject → Option String) (chunkSize : Int)
       (objects : List RowObject), objects ≠ [] → chunkSize < 0 →
       bulkExecChunkLoop run chunkSize 1 objects = some (.outOfBounds [])) := by
  refine ⟨?term, ?empty, ?zero, ?neg⟩
  case term =>
    intro run chunkSize objects hc
    exact ⟨objects.length + 1, _,
      bulkExecChunkLoop_normal run chunkSize hc _ objects (Nat.lt_succ_self _)⟩
  case empty =>
    intro run chunkSize
    by_cases h : (0 : Int) ≤ chunkSize
    · exact ⟨.normal (run []).toList, by simp [bulkExecChunkLoop, h]⟩
    · refine ⟨.outOfBounds [], ?_⟩
      simp only [bulkExecChunkLoop, List.length_nil, Int.ofNat_eq_coe, Nat.cast_zero]
      rw [if_neg h, if_pos (by omega)]
  case zero =>
    intro run objects hne fuel
    obtain ⟨x, xs, rfl⟩ : ∃ y ys, objects = y :: ys := by
      cases objects with
      | nil => exact absurd rfl hne
      | cons y ys => exact ⟨y, ys, rfl⟩
    clear hne
    induction fuel with
    | zero => rfl
    | succ n ih =>
      simp only [bulkExecChunkLoop]
      rw [if_neg (by simp), if_neg (by omega)]
      simp only [Int.toNat_zero, List.take_zero, List.drop_zero]
      rw [if_neg (by simp)]
      rw [ih]
  case neg =>
    intro run chunkSize objects hne hc
    obtain ⟨x, xs, rfl⟩ : ∃ y ys, objects = y :: ys := by
      cases objects with
      | nil => exact absurd rfl hne
      | cons y ys => exact ⟨y, ys, rfl⟩
    simp only [bulkExecChunkLoop]
    rw [if_neg (by simp only [List.length_cons]; push_cast; omega), if_pos hc]

/-- C10 witness: concrete instances of all four parts, at chunk sizes 1, -5,
0 and -1 over one-element (or empty) batches. -/
theorem claim_C10_witness :
    (∃ fuel r, bulkExecChunkLoop runNoop 1 fuel [RowObject.invalid] = some r)
    ∧ (∃ r, bulkExecChunkLoop runNoop (-5) 1 [] = some r)
    ∧ (∀ fuel, bulkExecChunkLoop runNoop 0 fuel [RowObject.invalid] = none)
    ∧ bulkExecChunkLoop runNoop (-1) 1 [RowObject.invalid] = some (.outOfBounds []) :=
  ⟨claim_C10.1 runNoop 1 [RowObject.invalid] (by decide),
   claim_C10.2.1 runNoop (-5),
   claim_C10.2.2.1 runNoop [RowObject.invalid] (by simp),
   claim_C10.2.2.2 runNoop (-1) [RowObject.invalid] (by simp) (by decide)⟩

/-! Claim C7. -/

/-- C7: for every objects list and every positive chunk size, `BulkExecChunk`
splits the list into the contiguous order-preserving chunks `goChunks` of at
most `chunkSize` elements each (`flatten` recovers the original list, e.g.
7 rows at size 3 give chunks of sizes 3, 3, 1), runs the assemble-and-execute
pipeline `BulkExec` once per chunk, collects the errors of all chunks in
chunk order — later chunks are attempted and their errors reported even when
an earlier chunk fails — and returns the empty error list exactly when every
chunk pipeline succeeded. -/
theorem claim_C7 (exec : BulkScope → Option String) (now : Nat) (tableName : String)
    (insertOption : Option String) (execFunc : ExecFunc) (chunkSize : Int)
    (objects : List RowObject) (hc : 1 ≤ chunkSize) :
    BulkExecChunk (fun ch => BulkExec exec now tableName insertOption ch execFunc)
        chunkSize objects
      = some (.normal ((goChunks chunkSize objects).filterMap
          (fun ch => BulkExec exec now tableName insertOption ch execFunc)))
    ∧ (goChunks chunkSize objects).flatten = objects
    ∧ (∀ ch ∈ goChunks chunkSize objects, (ch.length : Int) ≤ chunkSize)
    ∧ (BulkExecChunk (fun ch => BulkExec exec now tableName insertOption ch execFunc)
          chunkSize objects = some (.normal [])
        ↔ ∀ ch ∈ goChunks chunkSize objects,
            BulkExec exec now tableName insertOption ch execFunc = none)
    ∧ (goChunks 3 (List.replicate 7 RowObject.invalid)).map List.length = [3, 3, 1] := by
  have hmain := bulkExecChunkLoop_normal
    (fun ch => BulkExec exec now tableName insertOption ch execFunc)
    chunkSize hc (objects.length + 1) objects (Nat.lt_succ_self _)
  refine ⟨hmain, ?_, ?_, ?_, ?_⟩
  · exact goChunksAux_flatten chunkSize hc _ objects (le_refl _)
  · exact goChunksAux_sizes chunkSize hc _ objects (le_refl _)
  · rw [show BulkExecChunk (fun ch => BulkExec exec now tableName insertOption ch execFunc)
        chunkSize objects = bulkExecChunkLoop
          (fun ch => BulkExec exec now tableName insertOption ch execFunc)
          chunkSize (objects.length + 1) objects from rfl]
    rw [hmain]
    constructor
    · intro h
      have : (goChunks chunkSize objects).filterMap
          (fun ch => BulkExec exec now tableName insertOption ch execFunc) = [] := by
        injection h with h2
        injection h2
      exact List.filterMap_eq_nil_iff.mp this
    · intro h
      rw [List.filterMap_eq_nil_iff.mpr h]
  · decide

/-- C7 witness: the pipeline over three trivially-invalid rows at chunk size
2: two chunks, their shape errors both collected. -/
theorem claim_C7_witness :
    BulkExecChunk (fun ch => BulkExec (fun _ => none) 0 "" none ch InsertFunc)
        2 [RowObject.invalid, RowObject.invalid, RowObject.invalid]
      = some (.normal
          ((goChunks 2 [RowObject.invalid, RowObject.invalid, RowObject.invalid]).filterMap
            (fun ch => BulkExec (fun _ => none) 0 "" none ch InsertFunc)))
    ∧ (goChunks 2 [RowObject.invalid, RowObject.invalid, RowObject.invalid]).flatten
        = [RowObject.invalid, RowObject.invalid, RowObject.invalid]
    ∧ (∀ ch ∈ goChunks 2 [RowObject.invalid, RowObject.invalid, RowObject.invalid],
        (ch.length : Int) ≤ 2)
    ∧ (BulkExecChunk (fun ch => BulkExec (fun _ => none) 0 "" none ch InsertFunc)
          2 [RowObject.invalid, RowObject.invalid, RowObject.invalid] = some (.normal [])
        ↔ ∀ ch ∈ goChunks 2 [RowObject.invalid, RowObject.invalid, RowObject.invalid],
            BulkExec (fun _ => none) 0 "" none ch InsertFunc = none)
    ∧ (goChunks 3 (List.replicate 7 RowObject.invalid)).map List.length = [3, 3, 1] :=
  claim_C7 (fun _ => none) 0 "" none InsertFunc 2
    [RowObject.invalid, RowObject.invalid, RowObject.invalid] (by decide)

/-! Claim C1. -/

/-- C1: for every non-empty batch whose rows all normalize and share one
shape, the assembled statement has exactly one placeholder group per row,
each group of arity equal to the canonical column count (`placeholderGroup`
of the sorted first-row key set), the flat argument list has length
rows × columns, and argument `i` is the value of row `i / columnCount` at
the canonical column in position `i % columnCount` — row-major order. -/
theorem claim_C1 (now : Nat) (objects : List RowObject) (ms : List AttrMap)
    (q groups : List String) (vars : List Value)
    (hne : objects ≠ [])
    (hnorm : normalizeAll now objects = .ok ms)
    (_hshape : ∀ m ∈ ms, attrKeys m = attrKeys (ms.getD 0 []))
    (hasm : assembleParts now objects = .ok (some (q, groups, vars))) :
    groups = List.replicate objects.length
      (placeholderGroup (sortStrings (attrKeys (ms.getD 0 []))).length)
    ∧ vars.length = objects.length * (sortStrings (attrKeys (ms.getD 0 []))).length
    ∧ ∀ i, i < objects.length * (sortStrings (attrKeys (ms.getD 0 []))).length →
        vars.getD i .null
          = attrGet (ms.getD (i / (sortStrings (attrKeys (ms.getD 0 []))).length) [])
              ((sortStrings (attrKeys (ms.getD 0 []))).getD
                (i % (sortStrings (attrKeys (ms.getD 0 []))).length) "") := by
  obtain ⟨o, rest, rfl⟩ : ∃ y ys, objects = y :: ys := by
    cases objects with
    | nil => exact absurd rfl hne
    | cons y ys => exact ⟨y, ys, rfl⟩
  have hok := assembleParts_ok now o rest ms hnorm
  rw [hasm] at hok
  simp only [Except.ok.injEq, Option.some.injEq, Prod.mk.injEq] at hok
  obtain ⟨hq, hg, hv⟩ := hok
  refine ⟨hg, ?_, ?_⟩
  · rw [hv, flatMap_rows_length, normalizeAll_length now _ ms hnorm]
  · intro i hi
    rw [hv]
    have hk : 0 < (sortStrings (attrKeys (ms.getD 0 []))).length := by
      rcases Nat.eq_zero_or_pos (sortStrings (attrKeys (ms.getD 0 []))).length with h0 | h
      · rw [h0, Nat.mul_zero] at hi
        exact absurd hi (Nat.not_lt_zero _)
      · exact h
    exact flatMap_rows_getD _ _ ms i hk
      (by rw [normalizeAll_length now _ ms hnorm]; exact hi)

def c1row1 : RowObject := .struct [plainField "b" (.str "two"), plainField "a" (.str "one")]

def c1row2 : RowObject := .struct [plainField "b" (.str "four"), plainField "a" (.str "three")]

def c1map1 : AttrMap := [("b", .str "two"), ("a", .str "one")]

def c1map2 : AttrMap := [("b", .str "four"), ("a", .str "three")]

/-- C1 witness: a two-row, two-column batch; the canonical order sorts the
raw keys to a, b, the groups are two groups of arity two, and the four
arguments are laid out row-major. -/
theorem claim_C1_witness :
    ([c1row1, c1row2] : List RowObject) ≠ []
    ∧ normalizeAll 0 [c1row1, c1row2] = .ok [c1map1, c1map2]
    ∧ (∀ m ∈ ([c1map1, c1map2] : List AttrMap),
        attrKeys m = attrKeys (([c1map1, c1map2] : List AttrMap).getD 0 []))
    ∧ assembleParts 0 [c1row1, c1row2]
        = .ok (some (["\x60a\x60", "\x60b\x60"], ["(?, ?)", "(?, ?)"],
            [.str "one", .str "two", .str "three", .str "four"]))
    ∧ ((["(?, ?)", "(?, ?)"] : List String) = List.replicate 2 (placeholderGroup 2)
       ∧ ([Value.str "one", Value.str "two", Value.str "three", Value.str "four"]).length
           = 2 * 2
       ∧ ∀ i, i < 2 * 2 →
           ([Value.str "one", Value.str "two", Value.str "three",
             Value.str "four"] : List Value).getD i .null
             = attrGet (([c1map1, c1map2] : List AttrMap).getD (i / 2) [])
                 ((["a", "b"] : List String).getD (i % 2) "")) :=
  ⟨by simp, rfl, by decide, rfl,
   claim_C1 0 [c1row1, c1row2] [c1map1, c1map2]
     ["\x60a\x60", "\x60b\x60"] ["(?, ?)", "(?, ?)"]
     [.str "one", .str "two", .str "three", .str "four"]
     (by simp) rfl (by decide) rfl⟩

/-! Claim C2. -/

/-- Column names of the repository regression test `Test_columnOrder`, whose
quoted forms sort differently from their raw forms. -/
def qcexNames : List String := ["xxx", "time", "time_from", "aaa", "100_aa", "100_a"]

/-- C2: for every non-empty batch, the emitted quoted column list is the
raw (unquoted) key set of the first normalized row, sorted ascending
lexicographically, quoted only after sorting; the same sorted raw list
drives per-row value extraction (`rowVars`); and on the repository test
fixture the quoted output preserves the raw ranking even though sorting the
already-quoted strings gives a different order (backtick sorts after the
underscore, so quoted time_from would precede quoted time). -/
theorem claim_C2 (now : Nat) (o : RowObject) (rest : List RowObject) (m : AttrMap)
    (q groups : List String) (vars : List Value)
    (hm : ObjectToMap now o = .ok m)
    (hasm : assembleParts now (o :: rest) = .ok (some (q, groups, vars))) :
    q = (sortStrings (attrKeys m)).map quoteColumn
    ∧ List.Sorted strLe (sortStrings (attrKeys m))
    ∧ (sortStrings (attrKeys m)).Perm (attrKeys m)
    ∧ rowVars now (sortStrings (attrKeys m)) (o :: rest) = .ok vars
    ∧ ((sortStrings qcexNames).map quoteColumn
        = ["\x60100_a\x60", "\x60100_aa\x60", "\x60aaa\x60",
           "\x60time\x60", "\x60time_from\x60", "\x60xxx\x60"]
       ∧ sortStrings (qcexNames.map quoteColumn)
           ≠ (sortStrings qcexNames).map quoteColumn) := by
  simp only [assembleParts, hm] at hasm
  cases hrv : rowVars now (sortStrings (attrKeys m)) (o :: rest) with
  | error e =>
    rw [hrv] at hasm
    cases hasm
  | ok vs =>
    rw [hrv] at hasm
    simp only [Except.ok.injEq, Option.some.injEq, Prod.mk.injEq] at hasm
    obtain ⟨hq, _, hv⟩ := hasm
    refine ⟨hq.symm, sortStrings_sorted _, sortStrings_perm _, ?_, by decide⟩
    rw [hv]


/-- C2 witness: the two-row batch of the C1 witness; raw keys b, a sort to
a, b and are quoted afterwards. -/
theorem claim_C2_witness :
    ObjectToMap 0 c1row1 = .ok c1map1
    ∧ assembleParts 0 [c1row1, c1row2]
        = .ok (some (["\x60a\x60", "\x60b\x60"], ["(?, ?)", "(?, ?)"],
            [.str "one", .str "two", .str "three", .str "four"]))
    ∧ ((["\x60a\x60", "\x60b\x60"] : List String)
          = (sortStrings (attrKeys c1map1)).map quoteColumn
       ∧ List.Sorted strLe (sortStrings (attrKeys c1map1))
       ∧ (sortStrings (attrKeys c1map1)).Perm (attrKeys c1map1)
       ∧ rowVars 0 (sortStrings (attrKeys c1map1)) [c1row1, c1row2]
           = .ok [.str "one", .str "two", .str "three", .str "four"]
       ∧ ((sortStrings qcexNames).map quoteColumn
            = ["\x60100_a\x60", "\x60100_aa\x60", "\x60aaa\x60",
               "\x60time\x60", "\x60time_from\x60", "\x60xxx\x60"]
          ∧ sortStrings (qcexNames.map quoteColumn)
              ≠ (sortStrings qcexNames).map quoteColumn)) :=
  ⟨rfl, rfl,
   claim_C2 0 c1row1 [c1row2] c1map1
     ["\x60a\x60", "\x60b\x60"] ["(?, ?)", "(?, ?)"]
     [.str "one", .str "two", .str "three", .str "four"] rfl rfl⟩

/-! Rule-level lemmas about `includedValue`. -/

/-- Reading of the exclusion rules of `ObjectToMap`: a field that is a
foreign key, a relationship, ignored, a blank primary key named id, or blank
with a declared default value is never assigned into the attribute map,
whatever its other flags. -/
theorem includedValue_excluded (now : Nat) (f : Field)
    (h : f.hasForeignKey = true ∨ f.hasRelationship = true ∨ f.isIgnored = true
      ∨ (f.dbName = "id" ∧ f.isPrimaryKey = true ∧ f.isBlank = true)
      ∨ (f.hasDefaultValue = true ∧ f.isBlank = true ∧ f.tagDefault.isSome = true)) :
    includedValue now f = none := by
  unfold includedValue
  by_cases h1 : f.hasForeignKey = true
  · simp [h1]
  · by_cases h2 : f.hasRelationship = true
    · simp [h1, h2]
    · by_cases h3 : f.isIgnored = true
      · simp [h1, h2, h3]
      · by_cases h4 : (f.hasDefaultValue && f.isBlank && f.tagDefault.isSome) = true
        · simp [h1, h2, h3, h4]
        · by_cases h5 : (f.dbName = "id" && f.isPrimaryKey && f.isBlank) = true
          · simp [h1, h2, h3, h4, h5]
          · exfalso
            rcases h with h | h | h | h | h
            · exact h1 h
            · exact h2 h
            · exact h3 h
            · exact h5 (by simp [h.1, h.2.1, h.2.2])
            · exact h4 (by simp [h.1, h.2.1, h.2.2])

/-- Reading of the timestamp rule of `ObjectToMap`: a CreatedAt/UpdatedAt
field that survives all earlier exclusion rules is assigned the batch
instant when blank, and its own explicit value otherwise. -/
theorem includedValue_timestamp (now : Nat) (f : Field)
    (hts : f.structName = "CreatedAt" ∨ f.structName = "UpdatedAt")
    (hfk : f.hasForeignKey = false) (hrel : f.hasRelationship = false)
    (hig : f.isIgnored = false)
    (hdef : (f.hasDefaultValue && f.isBlank && f.tagDefault.isSome) = false)
    (hid : (f.dbName = "id" && f.isPrimaryKey && f.isBlank) = false)
    (hai : autoIncrSkip f = false) :
    includedValue now f = some (if f.isBlank then Value.time now else f.value) := by
  unfold includedValue
  simp only [hfk, hrel, hig, hdef, hid, hai, Bool.false_eq_true, if_false]
  rcases hts with h | h <;> cases hb : f.isBlank <;> simp [h, hb]

/-! Claim C3. -/

/-- Blank CreatedAt field carrying a declared static default value. -/
def tsDefaultField : Field :=
  { structName := "CreatedAt", dbName := "created_at", value := .null, isBlank := true,
    hasForeignKey := false, hasRelationship := false, isIgnored := false,
    hasDefaultValue := true, tagDefault := some "CURRENT_TIMESTAMP", isPrimaryKey := false,
    tagAutoIncrement := none }

/-- C3 counterexample: a batch whose single row has a blank CreatedAt field
with a declared default. The claim says every blank CreatedAt field of every
row receives the batch instant in the argument list, but here the
default-value exclusion fires first: the call succeeds with an empty
argument list, so the batch instant appears nowhere. -/
theorem claim_C3_counterexample :
    tsDefaultField.structName = "CreatedAt"
    ∧ tsDefaultField.isBlank = true
    ∧ ∃ q groups vars,
        assembleParts 5 [RowObject.struct [tsDefaultField]] = .ok (some (q, groups, vars))
        ∧ Value.time 5 ∉ vars :=
  ⟨rfl, rfl, [], ["()"], [], rfl, by simp⟩

/-- C3 (amended): one batch instant is generated per assembly call and
threaded unchanged to every row — the embedding passes the single
`gorm.NowFunc()` value stored in `bulkNow` as `now` — and for every row,
every CreatedAt/UpdatedAt field that survives the earlier exclusion rules
(foreign key, relationship, ignored, blank with declared default, blank id
primary key, auto increment) contributes, at its canonical column position,
that exact same instant when blank and its own explicit value when not. -/
theorem claim_C3 (now : Nat) (objects : List RowObject) (ms : List AttrMap)
    (q groups : List String) (vars : List Value)
    (hasm : assembleParts now objects = .ok (some (q, groups, vars)))
    (hnorm : normalizeAll now objects = .ok ms) :
    ∀ i fields f, i < objects.length →
      derefOnce (objects.getD i .invalid) = .struct fields →
      f ∈ fields →
      (∀ g ∈ fields, g.dbName = f.dbName → g = f) →
      (f.structName = "CreatedAt" ∨ f.structName = "UpdatedAt") →
      f.hasForeignKey = false → f.hasRelationship = false → f.isIgnored = false →
      (f.hasDefaultValue && f.isBlank && f.tagDefault.isSome) = false →
      (f.dbName = "id" && f.isPrimaryKey && f.isBlank) = false →
      autoIncrSkip f = false →
      ∀ j, j < (sortStrings (attrKeys (ms.getD 0 []))).length →
        (sortStrings (attrKeys (ms.getD 0 []))).getD j "" = f.dbName →
        vars.getD (i * (sortStrings (attrKeys (ms.getD 0 []))).length + j) .null
          = (if f.isBlank then Value.time now else f.value) := by
  intro i fields f hi hder hf huniq hts hfk hrel hig hdef hid hai j hj hcol
  obtain ⟨o, rest, rfl⟩ : ∃ y ys, objects = y :: ys := by
    cases objects with
    | nil => cases hi
    | cons y ys => exact ⟨y, ys, rfl⟩
  have hok := assembleParts_ok now o rest ms hnorm
  rw [hasm] at hok
  simp only [Except.ok.injEq, Option.some.injEq, Prod.mk.injEq] at hok
  obtain ⟨_, _, hv⟩ := hok
  rw [hv]
  rw [row_major_getD _ _ ms i j (by rw [normalizeAll_length now _ ms hnorm]; exact hi) hj]
  rw [hcol]
  exact ObjectToMap_attrGet now _ fields (ms.getD i []) f _ hder
    (normalizeAll_getD now (o :: rest) ms hnorm i hi) hf huniq
    (includedValue_timestamp now f hts hfk hrel hig hdef hid hai)

/-- Blank CreatedAt field with no default and no other special flags. -/
def blankCreatedAt : Field :=
  { structName := "CreatedAt", dbName := "created_at", value := .null, isBlank := true,
    hasForeignKey := false, hasRelationship := false, isIgnored := false,
    hasDefaultValue := false, tagDefault := none, isPrimaryKey := false,
    tagAutoIncrement := none }

def c3row : RowObject := .struct [plainField "foo" (.str "x"), blankCreatedAt]

def c3map : AttrMap := [("foo", .str "x"), ("created_at", .time 9)]

/-- C3 witness: a two-row batch whose rows both have a blank CreatedAt; both
rows receive the identical instant 9 at column position 0. -/
theorem claim_C3_witness :
    assembleParts 9 [c3row, c3row]
      = .ok (some (["\x60created_at\x60", "\x60foo\x60"], ["(?, ?)", "(?, ?)"],
          [.time 9, .str "x", .time 9, .str "x"]))
    ∧ normalizeAll 9 [c3row, c3row] = .ok [c3map, c3map]
    ∧ ([Value.time 9, Value.str "x", Value.time 9, Value.str "x"].getD (0 * 2 + 0) .null
        = (if blankCreatedAt.isBlank then Value.time 9 else blankCreatedAt.value))
    ∧ ([Value.time 9, Value.str "x", Value.time 9, Value.str "x"].getD (1 * 2 + 0) .null
        = (if blankCreatedAt.isBlank then Value.time 9 else blankCreatedAt.value)) :=
  ⟨rfl, rfl,
   claim_C3 9 [c3row, c3row] [c3map, c3map]
     ["\x60created_at\x60", "\x60foo\x60"] ["(?, ?)", "(?, ?)"]
     [.time 9, .str "x", .time 9, .str "x"] rfl rfl
     0 [plainField "foo" (.str "x"), blankCreatedAt] blankCreatedAt
     (by decide) rfl (by decide) (by decide) (Or.inl rfl) rfl rfl rfl
     (by decide) (by decide) (by decide) 0 (by decide) (by decide),
   claim_C3 9 [c3row, c3row] [c3map, c3map]
     ["\x60created_at\x60", "\x60foo\x60"] ["(?, ?)", "(?, ?)"]
     [.time 9, .str "x", .time 9, .str "x"] rfl rfl
     1 [plainField "foo" (.str "x"), blankCreatedAt] blankCreatedAt
     (by decide) rfl (by decide) (by decide) (Or.inl rfl) rfl rfl rfl
     (by decide) (by decide) (by decide) 0 (by decide) (by decide)⟩

/-! Claim C4. -/

def c4row1 : RowObject := .struct [plainField "a" (.int 1), plainField "b" (.int 2)]

def c4row2 : RowObject := .struct [plainField "a" (.int 3)]

/-- C4 counterexample: the first row establishes canonical columns a, b; the
second row lacks column b. The claim says the whole call must fail with an
error and emit no statement, but the call succeeds and silently binds the Go
nil (`Value.null`) in place of the absent column. -/
theorem claim_C4_counterexample :
    ObjectToMap 0 c4row1 = .ok [("a", .int 1), ("b", .int 2)]
    ∧ ObjectToMap 0 c4row2 = .ok [("a", .int 3)]
    ∧ "b" ∈ attrKeys [("a", Value.int 1), ("b", Value.int 2)]
    ∧ "b" ∉ attrKeys [("a", Value.int 3)]
    ∧ assembleParts 0 [c4row1, c4row2]
        = .ok (some (["\x60a\x60", "\x60b\x60"], ["(?, ?)", "(?, ?)"],
            [.int 1, .int 2, .int 3, .null])) :=
  ⟨rfl, rfl, by decide, by decide, rfl⟩

/-- C4 (amended): a row that fails normalization (not a struct) aborts the
whole assembly with an error and no statement is emitted; but a later row
merely lacking a canonical column does not fail — assembly succeeds and the
missing value is silently bound as the Go map nil (`Value.null`). -/
theorem claim_C4 :
    (∀ (now : Nat) (objects : List RowObject),
       (∃ r ∈ objects, ∃ e, ObjectToMap now r = .error e) →
       ∃ e, assembleParts now objects = .error e)
    ∧ (∀ (now : Nat) (objects : List RowObject) (ms : List AttrMap)
         (q groups : List String) (vars : List Value),
       normalizeAll now objects = .ok ms →
       assembleParts now objects = .ok (some (q, groups, vars)) →
       ∀ i j, i < objects.length →
         j < (sortStrings (attrKeys (ms.getD 0 []))).length →
         (sortStrings (attrKeys (ms.getD 0 []))).getD j "" ∉ attrKeys (ms.getD i []) →
         vars.getD (i * (sortStrings (attrKeys (ms.getD 0 []))).length + j) .null
           = .null) := by
  constructor
  · intro now objects hex
    cases objects with
    | nil =>
      obtain ⟨r, hr, _⟩ := hex
      cases hr
    | cons o rest =>
      cases ho : ObjectToMap now o with
      | error e => exact ⟨e, by simp [assembleParts, ho]⟩
      | ok m0 =>
        obtain ⟨e, he⟩ := rowVars_error now (sortStrings (attrKeys m0)) (o :: rest) hex
        exact ⟨e, by simp [assembleParts, ho, he]⟩
  · intro now objects ms q groups vars hnorm hasm i j hi hj hnot
    obtain ⟨o, rest, rfl⟩ : ∃ y ys, objects = y :: ys := by
      cases objects with
      | nil => cases hi
      | cons y ys => exact ⟨y, ys, rfl⟩
    have hok := assembleParts_ok now o rest ms hnorm
    rw [hasm] at hok
    simp only [Except.ok.injEq, Option.some.injEq, Prod.mk.injEq] at hok
    obtain ⟨_, _, hv⟩ := hok
    rw [hv]
    rw [row_major_getD _ _ ms i j (by rw [normalizeAll_length now _ ms hnorm]; exact hi) hj]
    exact attrGet_eq_null_of_not_mem _ _ hnot

/-- C4 witness: a batch containing only a non-struct row errors out; and in
the counterexample batch, row 1 at canonical column 1 (column b) is bound to
null. -/
theorem claim_C4_witness :
    (∃ e, assembleParts 0 [RowObject.invalid] = .error e)
    ∧ ([Value.int 1, Value.int 2, Value.int 3, Value.null].getD (1 * 2 + 1) .null
        = .null) :=
  ⟨claim_C4.1 0 [RowObject.invalid]
     ⟨.invalid, by simp, "value must be kind of Struct", rfl⟩,
   claim_C4.2 0 [c4row1, c4row2] [[("a", .int 1), ("b", .int 2)], [("a", .int 3)]]
     ["\x60a\x60", "\x60b\x60"] ["(?, ?)", "(?, ?)"] [.int 1, .int 2, .int 3, .null]
     rfl rfl 1 1 (by decide) (by decide) (by decide)⟩

/-! Claim C5. -/

/-- C5 counterexample: a blank CreatedAt field with a declared default. The
claim says the timestamp rule takes precedence and the field is included
with the batch instant; in the code the default-value exclusion runs first,
so the field is excluded entirely and the normalized map is empty. -/
theorem claim_C5_counterexample :
    tsDefaultField.structName = "CreatedAt"
    ∧ tsDefaultField.isBlank = true
    ∧ tsDefaultField.hasDefaultValue = true
    ∧ tsDefaultField.tagDefault.isSome = true
    ∧ includedValue 7 tsDefaultField = none
    ∧ ObjectToMap 7 (.struct [tsDefaultField]) = .ok [] :=
  ⟨rfl, rfl, rfl, rfl, rfl, rfl⟩

/-- C5 (amended): in the field-inclusion policy the default-value exclusion
takes precedence over the timestamp rule: a blank CreatedAt/UpdatedAt field
with a declared static default is excluded; the timestamp rule applies to a
blank timestamp field only when it has no declared default (and no earlier
rule fires), in which case it is included with the batch instant. -/
theorem claim_C5 (now : Nat) (f : Field)
    (hts : f.structName = "CreatedAt" ∨ f.structName = "UpdatedAt")
    (hb : f.isBlank = true)
    (hfk : f.hasForeignKey = false) (hrel : f.hasRelationship = false)
    (hig : f.isIgnored = false) :
    (f.hasDefaultValue = true → f.tagDefault.isSome = true →
       includedValue now f = none)
    ∧ ((f.hasDefaultValue && f.tagDefault.isSome) = false →
       (f.dbName = "id" && f.isPrimaryKey) = false →
       autoIncrSkip f = false →
       includedValue now f = some (.time now)) := by
  constructor
  · intro hdv hsome
    exact includedValue_excluded now f (Or.inr (Or.inr (Or.inr (Or.inr ⟨hdv, hb, hsome⟩))))
  · intro hdef hid hai
    have h1 : (f.hasDefaultValue && f.isBlank && f.tagDefault.isSome) = false := by
      rw [hb]
      simp only [Bool.and_true]
      rcases Bool.and_eq_false_iff.mp hdef with h | h <;> simp [h]
    have h2 : (f.dbName = "id" && f.isPrimaryKey && f.isBlank) = false := by
      rw [hb]
      simp only [Bool.and_true]
      exact hid
    have := includedValue_timestamp now f hts hfk hrel hig h1 h2 hai
    rw [this, hb]
    simp

/-- C5 witness: the default-carrying blank CreatedAt is excluded, while the
same field without a default receives the batch instant 7. -/
theorem claim_C5_witness :
    includedValue 7 tsDefaultField = none
    ∧ includedValue 7 blankCreatedAt = some (.time 7) :=
  ⟨(claim_C5 7 tsDefaultField (Or.inl rfl) rfl rfl rfl rfl).1 rfl rfl,
   (claim_C5 7 blankCreatedAt (Or.inl rfl) rfl rfl rfl rfl).2 (by decide) (by decide)
     (by decide)⟩

/-! Claim C6. -/

/-- C6 counterexample: with a `gorm:insert_option` set on the scope, the
insert-ignore strategy does append it — the claim says it never does. -/
theorem claim_C6_counterexample :
    InsertIgnoreFunc "\x60tests\x60" (some "ON DUPLICATE KEY UPDATE foo = VALUES(foo)")
        ["foo", "bar"] ["(?, ?)"]
      = "INSERT IGNORE INTO \x60tests\x60 (foo, bar) VALUES (?, ?)"
          ++ " " ++ "ON DUPLICATE KEY UPDATE foo = VALUES(foo)"
    ∧ InsertIgnoreFunc "\x60tests\x60" none ["foo", "bar"] ["(?, ?)"]
      = "INSERT IGNORE INTO \x60tests\x60 (foo, bar) VALUES (?, ?)" :=
  ⟨by decide, by decide⟩

/-- C6 (amended): the insert-ignore SQL is exactly the plain-insert SQL with
the IGNORE keyword inserted before the table clause, and — like the plain
insert — it does append the caller-supplied `gorm:insert_option` clause
whenever one is set on the scope. -/
theorem claim_C6 (tableName : String) (insertOption : Option String)
    (columnNames groups : List String) :
    (∃ rest, InsertFunc tableName insertOption columnNames groups = "INSERT INTO " ++ rest
       ∧ InsertIgnoreFunc tableName insertOption columnNames groups
           = "INSERT IGNORE INTO " ++ rest)
    ∧ ∀ o, insertOption = some o →
        ∃ pre, InsertIgnoreFunc tableName insertOption columnNames groups
          = pre ++ " " ++ o := by
  constructor
  · refine ⟨tableName ++ " (" ++ commaJoin columnNames ++ ") VALUES " ++ commaJoin groups
      ++ (match insertOption with | some o => " " ++ o | none => ""), ?_, ?_⟩
    · simp [InsertFunc, defaultWithFormat, String.append_assoc]
    · simp [InsertIgnoreFunc, defaultWithFormat, String.append_assoc]
  · intro o ho
    subst ho
    refine ⟨"INSERT IGNORE INTO " ++ tableName ++ " (" ++ commaJoin columnNames
      ++ ") VALUES " ++ commaJoin groups, ?_⟩
    simp [InsertIgnoreFunc, defaultWithFormat, String.append_assoc]

/-- C6 witness: a concrete call with an insert option set. -/
theorem claim_C6_witness :
    (∃ rest, InsertFunc "t" (some "X") ["c"] ["(?)"] = "INSERT INTO " ++ rest
       ∧ InsertIgnoreFunc "t" (some "X") ["c"] ["(?)"] = "INSERT IGNORE INTO " ++ rest)
    ∧ ∃ pre, InsertIgnoreFunc "t" (some "X") ["c"] ["(?)"] = pre ++ " " ++ "X" :=
  ⟨(claim_C6 "t" (some "X") ["c"] ["(?)"]).1,
   (claim_C6 "t" (some "X") ["c"] ["(?)"]).2 "X" rfl⟩

/-! Claim C8. -/

theorem quoteColumn_inj (a b : String) (h : quoteColumn a = quoteColumn b) : a = b := by
  have h0 := congrArg String.data h
  have hlit : "\x60".data = ['\x60'] := rfl
  rw [quoteColumn, quoteColumn, String.data_append, String.data_append,
    String.data_append, String.data_append, hlit] at h0
  have h1 := List.append_cancel_right h0
  simp only [List.cons_append, List.nil_append] at h1
  injection h1 with _ h2
  exact congrArg String.mk h2

/-- C8: a field that is flagged foreign-key or relationship, explicitly
ignored, a blank primary-key field named id, or blank with a declared
default, is absent from the normalized attribute map (a lookup yields nil),
hence absent from the sorted canonical column list, from the quoted column
list, and — when the row is the first row of a batch — from the emitted
column list of the assembled statement; the argument list, built only from
canonical columns, therefore never carries its value. -/
theorem claim_C8 (now : Nat) (o : RowObject) (fields : List Field) (m : AttrMap)
    (f : Field)
    (hder : derefOnce o = .struct fields) (hm : ObjectToMap now o = .ok m)
    (_hf : f ∈ fields) (huniq : ∀ g ∈ fields, g.dbName = f.dbName → g = f)
    (hexcl : f.hasForeignKey = true ∨ f.hasRelationship = true ∨ f.isIgnored = true
      ∨ (f.dbName = "id" ∧ f.isPrimaryKey = true ∧ f.isBlank = true)
      ∨ (f.hasDefaultValue = true ∧ f.isBlank = true ∧ f.tagDefault.isSome = true)) :
    f.dbName ∉ attrKeys m
    ∧ attrGet m f.dbName = .null
    ∧ f.dbName ∉ sortStrings (attrKeys m)
    ∧ quoteColumn f.dbName ∉ (sortStrings (attrKeys m)).map quoteColumn
    ∧ ∀ rest q groups vars,
        assembleParts now (o :: rest) = .ok (some (q, groups, vars)) →
        quoteColumn f.dbName ∉ q := by
  have hnone : ∀ g ∈ fields, g.dbName = f.dbName → includedValue now g = none := by
    intro g hg hgd
    rw [huniq g hg hgd]
    exact includedValue_excluded now f hexcl
  have hkeys : f.dbName ∉ attrKeys m :=
    ObjectToMap_not_mem_keys now o fields m f.dbName hder hm hnone
  have hsorted : f.dbName ∉ sortStrings (attrKeys m) := fun hin =>
    hkeys ((sortStrings_perm (attrKeys m)).mem_iff.mp hin)
  have hquoted : quoteColumn f.dbName ∉ (sortStrings (attrKeys m)).map quoteColumn := by
    intro hin
    obtain ⟨c, hc, hcq⟩ := List.mem_map.mp hin
    exact hsorted ((quoteColumn_inj c f.dbName hcq) ▸ hc)
  refine ⟨hkeys, attrGet_eq_null_of_not_mem m _ hkeys, hsorted, hquoted, ?_⟩
  intro rest q groups vars hasm
  simp only [assembleParts, hm] at hasm
  cases hrv : rowVars now (sortStrings (attrKeys m)) (o :: rest) with
  | error e =>
    rw [hrv] at hasm
    cases hasm
  | ok vs =>
    rw [hrv] at hasm
    simp only [Except.ok.injEq, Option.some.injEq, Prod.mk.injEq] at hasm
    obtain ⟨hq, _, _⟩ := hasm
    rw [← hq]
    exact hquoted

/-- Foreign-key-tagged field, as in the repository test type `TTT`. -/
def fkField : Field :=
  { structName := "T", dbName := "t_ref", value := .int 0, isBlank := false,
    hasForeignKey := true, hasRelationship := false, isIgnored := false,
    hasDefaultValue := false, tagDefault := none, isPrimaryKey := false,
    tagAutoIncrement := none }

def c8row : RowObject := .struct [plainField "field" (.str "keep me"), fkField]

/-- C8 witness: the foreign-key field is dropped from the map, the column
lists and the assembled statement of its one-row batch. -/
theorem claim_C8_witness :
    fkField.hasForeignKey = true
    ∧ "t_ref" ∉ attrKeys [("field", Value.str "keep me")]
    ∧ attrGet [("field", Value.str "keep me")] "t_ref" = .null
    ∧ "t_ref" ∉ sortStrings (attrKeys [("field", Value.str "keep me")])
    ∧ quoteColumn "t_ref"
        ∉ (sortStrings (attrKeys [("field", Value.str "keep me")])).map quoteColumn
    ∧ quoteColumn "t_ref" ∉ (["\x60field\x60"] : List String) := by
  have happ := claim_C8 0 c8row [plainField "field" (.str "keep me"), fkField]
    [("field", .str "keep me")] fkField rfl rfl (by decide) (by decide) (Or.inl rfl)
  exact ⟨rfl, happ.1, happ.2.1, happ.2.2.1, happ.2.2.2.1,
    happ.2.2.2.2 [] ["\x60field\x60"] ["(?)"] [.str "keep me"] rfl⟩

end GormBulk
